import Mathlib

/-!
Verification of the clab-tools planning core: the BGP plan builder
(`build_bgp_plan`, `classify_router` from bgp-wizard.py) and the OSPF
link/role rules (`get_router_role`, `ospf_processes_for_role`,
`link_to_ospf` from ospf-wizard.py), embedded shallowly and checked
against the natural-language specification.
-/

namespace ClabTools

/-- Python `s.startswith(p)` on strings, via character lists. -/
def pyStartswith (s p : String) : Bool :=
  p.toList.isPrefixOf s.toList

/-- Python `s.endswith(p)` on strings, via character lists. -/
def pyEndswith (s p : String) : Bool :=
  p.toList.isSuffixOf s.toList

/-- Python `s.lower()` (ASCII case folding, which is all the router names use). -/
def pyLower (s : String) : String :=
  String.mk (s.toList.map Char.toLower)

/-- Python `c in s` for a character against a string (e.g. `n1[0] in "cs"`). -/
def charIn (c : Char) (s : String) : Bool :=
  s.toList.contains c

/-! ## bgp-wizard.py: role classification -/

/-- `classify_router` from bgp-wizard.py: ordered prefix rules over the
lower-cased name, with single-letter fallbacks and `"other"` at the end. -/
def classify_router (name : String) : String :=
  let p := pyLower name
  if pyStartswith p "ce" then "ce"
  else if pyStartswith p "crr" then "crr"
  else if pyStartswith p "ccr" then "ccr"
  else if pyStartswith p "chr" then "chr"
  else if pyStartswith p "sar" then "sar"
  else if pyStartswith p "dhr" then "dhr"
  else if pyStartswith p "dsr" then "dsr"
  else if pyStartswith p "ahr" then "ahr"
  else if pyStartswith p "asr" then "asr"
  else if pyStartswith p "c" || pyStartswith p "s" then "core"
  else if pyStartswith p "d" || pyStartswith p "a" then "distribution"
  else "other"

/-! ## bgp-wizard.py: plan builder -/

/-- One element of `nodes_info` as consumed by `build_bgp_plan`:
`{"name": .., "role": .., "loopback": ..}` (the `host` field is never read
by the planner and is omitted). -/
structure Node where
  name : String
  role : String
  loopback : String
deriving DecidableEq, Repr

/-- One neighbor dict appended by `build_bgp_plan`:
`{"peer": .., "peer_name": .., "peer_role": .., "group": ..}`. -/
structure Neighbor where
  peer : String
  peer_name : String
  peer_role : String
  group : String
deriving DecidableEq, Repr

/-- One value of the `plan` dict: `{"node": .., "asn": .., "router_id": ..,
"neighbors": ..}`. -/
structure PlanEntry where
  node : Node
  asn : Nat
  router_id : String
  neighbors : List Neighbor
deriving DecidableEq, Repr

instance : Inhabited PlanEntry := ⟨⟨⟨"", "", ""⟩, 0, "", []⟩⟩

/-- The `plan` dict, as a total map from node name to entry.  Keys the
Python dict does not hold map to the default entry; the builder only ever
reads or writes keys it initialized, so the two agree on every access the
source performs. -/
def Plan : Type := String → PlanEntry

/-- `role_map.get(role, [])`: the sub-list of nodes with the given role,
in input order. -/
def roleGet (nodes : List Node) (r : String) : List Node :=
  nodes.filter (fun n => n.role == r)

/-- `plan[owner]["neighbors"].append(nb)`. -/
def addNeighbor (p : Plan) (owner : String) (nb : Neighbor) : Plan :=
  fun k => if k = owner then
    { p k with neighbors := (p k).neighbors ++ [nb] }
  else p k

/-- The neighbor dict built from peer node `x` with relation group `g`. -/
def mkNb (x : Node) (g : String) : Neighbor :=
  ⟨x.loopback, x.name, x.role, g⟩

/-- The mesh entry of step 1, whose `peer_role` is the literal `"crr"`. -/
def mkMesh (b : Node) : Neighbor :=
  ⟨b.loopback, b.name, "crr", "RR-Mesh"⟩

/-- `add_pair` from `build_bgp_plan`: bidirectional neighbor relationship,
skipped when the two names coincide. -/
def add_pair (p : Plan) (a b : Node) (gab gba : String) : Plan :=
  if a.name ≠ b.name then
    addNeighbor (addNeighbor p a.name (mkNb b gab)) b.name (mkNb a gba)
  else p

/-- The plan skeleton: `plan[n["name"]] = {node, asn, router_id, neighbors: []}`
for each node in order (a later node with the same name overwrites). -/
def skeletonPlan (nodes : List Node) (asn : Nat) : Plan :=
  nodes.foldl
    (fun p n => fun k => if k = n.name then ⟨n, asn, n.loopback, []⟩ else p k)
    (fun _ => default)

/-- Step 1 of `build_bgp_plan`: CRR full mesh. -/
def meshStep (p : Plan) (crrs : List Node) : Plan :=
  crrs.foldl
    (fun p a =>
      crrs.foldl
        (fun p b =>
          if a.name ≠ b.name then addNeighbor p a.name (mkMesh b) else p)
        p)
    p

/-- Steps 2–4 of `build_bgp_plan`: each reflector of `rrs` paired with each
client of `cls` via `add_pair(rr, cl, "RR-to-Client", "Client-to-RR")`. -/
def clientsStep (p : Plan) (rrs cls : List Node) : Plan :=
  rrs.foldl (fun p rr => cls.foldl (fun p cl =>
    add_pair p rr cl "RR-to-Client" "Client-to-RR") p) p

/-- The dedup key `(nb["peer"], nb["group"])`. -/
def nbKey (nb : Neighbor) : String × String :=
  (nb.peer, nb.group)

/-- The dedup loop body of `build_bgp_plan`: keep the first occurrence of
each `(peer, group)` key, `seen` being the set built so far. -/
def dedupAux : List Neighbor → List (String × String) → List Neighbor
  | [], _ => []
  | nb :: rest, seen =>
    if nbKey nb ∈ seen then dedupAux rest seen
    else nb :: dedupAux rest (nbKey nb :: seen)

/-- Deduplicate every entry's neighbor list. -/
def dedupPlan (p : Plan) : Plan :=
  fun k => { p k with neighbors := dedupAux (p k).neighbors [] }

/-- `build_bgp_plan(nodes_info, asn)` from bgp-wizard.py: skeleton, CRR
mesh, the three reflector→client steps, then dedup.  (The validation
warnings the source prints afterwards are `validationWarnings` below.) -/
def build_bgp_plan (nodes : List Node) (asn : Nat) : Plan :=
  let crrs := roleGet nodes "crr"
  let cls2 := roleGet nodes "ccr" ++ roleGet nodes "chr" ++ roleGet nodes "sar"
  let chrs := roleGet nodes "chr"
  let cls3 := roleGet nodes "dhr" ++ roleGet nodes "dsr" ++ roleGet nodes "ahr"
  let ahrs := roleGet nodes "ahr"
  let asrs := roleGet nodes "asr"
  dedupPlan
    (clientsStep
      (clientsStep
        (clientsStep (meshStep (skeletonPlan nodes asn) crrs) crrs cls2)
        chrs cls3)
      ahrs asrs)

/-- The neighbor list the final plan holds under key `k`. -/
def neighborsOf (p : Plan) (k : String) : List Neighbor :=
  (p k).neighbors

/-- The `expectations` dict of `build_bgp_plan`'s validation block. -/
def expectations (r : String) : Option String :=
  if r = "dhr" then some "chr"
  else if r = "dsr" then some "chr"
  else if r = "ahr" then some "chr"
  else if r = "asr" then some "ahr"
  else if r = "chr" then some "crr"
  else if r = "ccr" then some "crr"
  else if r = "sar" then some "crr"
  else none

/-- `any(nb["peer_role"] == expect and nb["group"] == "Client-to-RR" ...)`. -/
def hasUpstream (nbs : List Neighbor) (expect : String) : Bool :=
  nbs.any (fun nb => nb.peer_role == expect && nb.group == "Client-to-RR")

/-- The validation warnings `build_bgp_plan` prints after dedup: one
`(name, role, expected-upstream-role)` triple per node whose expected
upstream is absent from its neighbor list. -/
def validationWarnings (nodes : List Node) (p : Plan) :
    List (String × String × String) :=
  nodes.filterMap (fun n =>
    match expectations n.role with
    | some expect =>
      if hasUpstream (neighborsOf p n.name) expect then none
      else some (n.name, n.role, expect)
    | none => none)

/-! ## bgp-wizard.py: the missing-loopback gate of `main` -/

/-- A node of `nodes_info` as it stands right after the loopback-collection
loop of `main`, where the `loopback` field is `get_loopback0_ip`'s result
(an IP string, or `None` when no `ipv4 address` line matched). -/
structure RawNode where
  name : String
  role : String
  host : String
  loopback : Option String
deriving DecidableEq, Repr

/-- Python truthiness of `n["loopback"]` in `not n["loopback"]`:
falsy when `None` or the empty string. -/
def pyFalsyStr : Option String → Bool
  | none => true
  | some s => s == ""

/-- The tail of bgp-wizard.py `main`: compute `missing`, and either exit
with the missing routers' names before any plan is built, or build the
plan from the now-resolved nodes.  `Except.error` is the `sys.exit(1)`
path. -/
def bgp_plan_or_abort (nodes : List RawNode) (asn : Nat) :
    Except (List String) Plan :=
  let missing := nodes.filter (fun n => pyFalsyStr n.loopback)
  if missing.isEmpty then
    Except.ok (build_bgp_plan
      (nodes.map (fun n => ⟨n.name, n.role, n.loopback.getD ""⟩)) asn)
  else
    Except.error (missing.map (fun n => n.name))

/-! ## ospf-wizard.py: roles, processes, link rules -/

def OSPF_AREA_CORE : String := "0.0.0.0"
def OSPF_AREA_DISTRIBUTION : String := "0.0.0.0"
def OSPF_AREA_ACCESS : String := "0.0.0.0"

/-- `get_router_role` from ospf-wizard.py: ordered, case-sensitive
startswith rules. -/
def get_router_role (name : String) : String :=
  if pyStartswith name "CE" then "ce"
  else if pyStartswith name "ch" then "ch"
  else if pyStartswith name "cc" then "cc"
  else if pyStartswith name "cr" then "cr"
  else if pyStartswith name "sa" then "sa"
  else if pyStartswith name "dh" then "dh"
  else if pyStartswith name "ds" then "ds"
  else if pyStartswith name "ah" then "ah"
  else if pyStartswith name "as" then "as"
  else if pyStartswith name "c" || pyStartswith name "s" then "core"
  else if pyStartswith name "d" then "d"
  else "other"

/-- `ospf_processes_for_role` from ospf-wizard.py. -/
def ospf_processes_for_role (role : String) : List Nat :=
  if role = "cc" ∨ role = "cr" ∨ role = "sa" ∨ role = "core" then [1]
  else if role = "ch" then [1, 10]
  else if role = "dh" ∨ role = "ds" then [10]
  else if role = "ah" then [10, 100]
  else if role = "as" then [100]
  else []

/-- `rid = get_loopback_ip(conn) or "1.1.1.1"` from ospf-wizard.py `main`:
the argument is `get_loopback_ip`'s result, and Python's `or` substitutes
the default for a falsy (absent or empty) loopback. -/
def ospf_rid (lb : Option String) : String :=
  match lb with
  | none => "1.1.1.1"
  | some s => if s = "" then "1.1.1.1" else s

/-- The per-router planning row the OSPF wizard's preview/config loops
compute: the router-id `get_loopback_ip(conn) or "1.1.1.1"` and the
per-role process list.  There is no failure path for an unresolved
loopback. -/
def ospf_router_plan (role : String) (lb : Option String) :
    String × List Nat :=
  (ospf_rid lb, ospf_processes_for_role role)

/-- The rule chain of `link_to_ospf` that follows the core↔core check
(every remaining check is a total string operation).  The `ah↔ah` branch
models `sorted([i1, i2])[0] in (i1, i2)` as membership of the minimum in
the pair, exactly as Python computes it. -/
def ltoRest (n1 i1 n2 i2 : String) : Option (Nat × String) :=
  if pyStartswith n1 "ch" && pyStartswith n2 "ch" then
    if pyEndswith i1 "0/0/0/0" || pyEndswith i2 "0/0/0/0" then
      some (1, OSPF_AREA_CORE)
    else
      some (10, OSPF_AREA_DISTRIBUTION)
  else if (pyStartswith n1 "d" && pyStartswith n2 "d")
      || ((pyStartswith n1 "d" && pyStartswith n2 "ah")
          || (pyStartswith n2 "d" && pyStartswith n1 "ah")) then
    some (10, OSPF_AREA_DISTRIBUTION)
  else if (pyStartswith n1 "a" && pyStartswith n2 "a")
      || ((pyStartswith n1 "ah" && pyStartswith n2 "a")
          || (pyStartswith n2 "a" && pyStartswith n1 "ah")) then
    some (100, OSPF_AREA_ACCESS)
  else if pyStartswith n1 "ah" && pyStartswith n2 "ah" then
    if min i1 i2 = i1 ∨ min i1 i2 = i2 then
      some (10, OSPF_AREA_DISTRIBUTION)
    else
      some (100, OSPF_AREA_ACCESS)
  else if (pyStartswith n1 "c" && pyStartswith n2 "d")
      || (pyStartswith n1 "d" && pyStartswith n2 "c") then
    some (10, OSPF_AREA_DISTRIBUTION)
  else
    none

/-- `link_to_ospf` from ospf-wizard.py, after the
`n, i = endpoint.split(":")` destructuring: the arguments are the two node
names and interface labels of one link observation.  `some r` is a normal
return of `r`; the outer `none` models the `IndexError` Python raises when
`n1[0]` (or, behind the short-circuiting `and`, `n2[0]`) indexes an empty
node name. -/
def link_to_ospf (n1 i1 n2 i2 : String) : Option (Option (Nat × String)) :=
  if pyStartswith n1 "CE" || pyStartswith n2 "CE" then some none
  else
    match n1.toList with
    | [] => none
    | c1 :: _ =>
      if charIn c1 "cs" then
        match n2.toList with
        | [] => none
        | c2 :: _ =>
          if charIn c2 "cs" then some (some (1, OSPF_AREA_CORE))
          else some (ltoRest n1 i1 n2 i2)
      else some (ltoRest n1 i1 n2 i2)

/-! ## Region extraction (spec-modelled, absent from the source) -/

/-- Modelled from the spec: the region of a node name is its trailing
digit run, absent when there is none (§4.1: split the name into a leading
alphabetic run and a trailing digit-run, the optional region).  The source
never extracts or consults regions anywhere; this definition exists only
to state the region-based claims. -/
def specRegion (name : String) : Option Nat :=
  let ds := (name.toList.reverse.takeWhile Char.isDigit).reverse
  if ds.isEmpty then none
  else some (ds.foldl (fun acc c => acc * 10 + (c.toNat - '0'.toNat)) 0)

/-! ## Closed form of the plan builder -/

/-- Replay a list of `(owner, neighbor)` appends onto a plan. -/
def applyAppends (p : Plan) (l : List (String × Neighbor)) : Plan :=
  l.foldl (fun p kn => addNeighbor p kn.1 kn.2) p

/-- The appends of a list that target key `k`, in order. -/
def keyed (l : List (String × Neighbor)) (k : String) : List Neighbor :=
  l.filterMap (fun kn => if kn.1 = k then some kn.2 else none)

/-- The appends performed by step 1 (CRR full mesh), in loop order. -/
def appendsMesh (crrs : List Node) : List (String × Neighbor) :=
  crrs.flatMap (fun a =>
    crrs.filterMap (fun b =>
      if a.name ≠ b.name then some (a.name, mkMesh b) else none))

/-- The appends performed by one `add_pair(a, b, gab, gba)` call. -/
def pairAppends (a b : Node) (gab gba : String) : List (String × Neighbor) :=
  if a.name ≠ b.name then
    [(a.name, mkNb b gab), (b.name, mkNb a gba)]
  else []

/-- The appends performed by one reflector→client step, in loop order. -/
def appendsClients (rrs cls : List Node) : List (String × Neighbor) :=
  rrs.flatMap (fun rr =>
    cls.flatMap (fun cl => pairAppends rr cl "RR-to-Client" "Client-to-RR"))

/-- Every append `build_bgp_plan` performs before dedup, in program order. -/
def buildPre (nodes : List Node) : List (String × Neighbor) :=
  appendsMesh (roleGet nodes "crr")
    ++ appendsClients (roleGet nodes "crr")
        (roleGet nodes "ccr" ++ roleGet nodes "chr" ++ roleGet nodes "sar")
    ++ appendsClients (roleGet nodes "chr")
        (roleGet nodes "dhr" ++ roleGet nodes "dsr" ++ roleGet nodes "ahr")
    ++ appendsClients (roleGet nodes "ahr") (roleGet nodes "asr")

/-! ## Concrete inputs used by counterexamples and witnesses -/

/-- A distribution client whose name carries region 12, with parent-tier
reflectors of regions 12 and 5 (spec §8, Scenario 2). -/
def nodesRegion : List Node :=
  [⟨"chr12", "chr", "10.0.0.1"⟩, ⟨"chr5", "chr", "10.0.0.2"⟩,
   ⟨"dsr12", "dsr", "10.0.0.3"⟩]

/-- Three distinct apex (crr) nodes sharing one loopback address. -/
def nodesSharedLoop : List Node :=
  [⟨"crr1", "crr", "10.0.0.1"⟩, ⟨"crr2", "crr", "10.0.0.1"⟩,
   ⟨"crr3", "crr", "10.0.0.1"⟩]

/-- A node list in which the name `X` occurs with role `dhr` and again
with role `ccr`. -/
def nodesDupName : List Node :=
  [⟨"X", "dhr", "1.1.1.1"⟩, ⟨"chrA", "chr", "2.2.2.2"⟩,
   ⟨"X", "ccr", "3.3.3.3"⟩]

/-- Two apex nodes with distinct names and loopbacks. -/
def nodesTwoCrr : List Node :=
  [⟨"crr1", "crr", "10.0.0.1"⟩, ⟨"crr2", "crr", "10.0.0.2"⟩]

/-- A lone parent reflector and a lone distribution client. -/
def nodesChrDsr : List Node :=
  [⟨"chr12", "chr", "10.0.0.1"⟩, ⟨"dsr5", "dsr", "10.0.0.3"⟩]

/-- A hierarchy slice used by the C4 witness. -/
def nodesHier : List Node :=
  [⟨"crr1", "crr", "10.0.0.1"⟩, ⟨"ccr1", "ccr", "10.0.0.2"⟩,
   ⟨"chr1", "chr", "10.0.0.3"⟩, ⟨"sar1", "sar", "10.0.0.4"⟩]

/-- A lone dhr node with no chr upstream anywhere. -/
def nodesLoneDhr : List Node :=
  [⟨"dhr1", "dhr", "10.0.0.9"⟩]

/-- A raw node whose loopback collection came back empty. -/
def rawMissing : List RawNode :=
  [⟨"dsr1", "dsr", "172.20.20.2", none⟩]

end ClabTools

/-!
The development below proves the claim theorems over the embedding above:
first the closed form of the plan builder, then the dedup and membership
lemmas, then the per-claim theorems, counterexamples and witnesses.
-/

namespace ClabTools

theorem neighborsOf_addNeighbor (p : Plan) (o : String) (nb : Neighbor) (k : String) :
    neighborsOf (addNeighbor p o nb) k =
      if k = o then neighborsOf p k ++ [nb] else neighborsOf p k := by
  unfold neighborsOf addNeighbor
  by_cases h : k = o <;> simp [h]

theorem applyAppends_append (p : Plan) (l1 l2 : List (String × Neighbor)) :
    applyAppends p (l1 ++ l2) = applyAppends (applyAppends p l1) l2 := by
  unfold applyAppends
  exact List.foldl_append _ _ _ _

theorem keyed_append (l1 l2 : List (String × Neighbor)) (k : String) :
    keyed (l1 ++ l2) k = keyed l1 k ++ keyed l2 k := by
  unfold keyed
  exact List.filterMap_append _ _ _

theorem neighborsOf_applyAppends (l : List (String × Neighbor)) (p : Plan) (k : String) :
    neighborsOf (applyAppends p l) k = neighborsOf p k ++ keyed l k := by
  induction l generalizing p with
  | nil => simp [applyAppends, keyed]
  | cons kn t ih =>
    have step : applyAppends p (kn :: t) = applyAppends (addNeighbor p kn.1 kn.2) t := rfl
    rw [step, ih, neighborsOf_addNeighbor]
    by_cases h : kn.1 = k
    · rw [if_pos h.symm]
      simp [keyed, List.filterMap_cons, h, List.append_assoc]
    · rw [if_neg (fun hh => h hh.symm)]
      simp [keyed, List.filterMap_cons, h]

theorem meshInner_eq (a : Node) (l : List Node) (p : Plan) :
    l.foldl (fun p b => if a.name ≠ b.name then addNeighbor p a.name (mkMesh b) else p) p
      = applyAppends p (l.filterMap (fun b =>
          if a.name ≠ b.name then some (a.name, mkMesh b) else none)) := by
  induction l generalizing p with
  | nil => rfl
  | cons b t ih =>
    by_cases h : a.name ≠ b.name
    · simp only [List.foldl_cons, List.filterMap_cons, if_pos h, ih]
      rfl
    · simp only [List.foldl_cons, List.filterMap_cons, if_neg h, ih]

theorem meshOuterAux (inner l : List Node) (p : Plan) :
    l.foldl (fun p a => inner.foldl
        (fun p b => if a.name ≠ b.name then addNeighbor p a.name (mkMesh b) else p) p) p
      = applyAppends p (l.flatMap (fun a => inner.filterMap (fun b =>
          if a.name ≠ b.name then some (a.name, mkMesh b) else none))) := by
  induction l generalizing p with
  | nil => rfl
  | cons a t ih =>
    simp only [List.foldl_cons, List.flatMap_cons]
    rw [applyAppends_append, ← meshInner_eq, ih]

theorem meshStep_eq (crrs : List Node) (p : Plan) :
    meshStep p crrs = applyAppends p (appendsMesh crrs) :=
  meshOuterAux crrs crrs p

theorem add_pair_eq (p : Plan) (a b : Node) (gab gba : String) :
    add_pair p a b gab gba = applyAppends p (pairAppends a b gab gba) := by
  unfold add_pair pairAppends
  by_cases h : a.name ≠ b.name
  · rw [if_pos h, if_pos h]; rfl
  · rw [if_neg h, if_neg h]; rfl

theorem clientsInner_eq (rr : Node) (cls : List Node) (p : Plan) :
    cls.foldl (fun p cl => add_pair p rr cl "RR-to-Client" "Client-to-RR") p
      = applyAppends p (cls.flatMap (fun cl =>
          pairAppends rr cl "RR-to-Client" "Client-to-RR")) := by
  induction cls generalizing p with
  | nil => rfl
  | cons cl t ih =>
    simp only [List.foldl_cons, List.flatMap_cons]
    rw [applyAppends_append, ← add_pair_eq, ih]

theorem clientsStep_eq (rrs cls : List Node) (p : Plan) :
    clientsStep p rrs cls = applyAppends p (appendsClients rrs cls) := by
  unfold clientsStep appendsClients
  induction rrs generalizing p with
  | nil => rfl
  | cons rr t ih =>
    simp only [List.foldl_cons, List.flatMap_cons]
    rw [applyAppends_append, ← clientsInner_eq, ih]

theorem neighborsOf_skeletonAux (l : List Node) (asn : Nat) (p : Plan)
    (hp : ∀ k, neighborsOf p k = []) (k : String) :
    neighborsOf (l.foldl (fun p n => fun k =>
      if k = n.name then ⟨n, asn, n.loopback, []⟩ else p k) p) k = [] := by
  induction l generalizing p with
  | nil => exact hp k
  | cons n t ih =>
    refine ih _ (fun k2 => ?_)
    unfold neighborsOf
    by_cases h : k2 = n.name
    · simp [h]
    · simpa [h] using hp k2

theorem neighborsOf_skeleton (nodes : List Node) (asn : Nat) (k : String) :
    neighborsOf (skeletonPlan nodes asn) k = [] := by
  unfold skeletonPlan
  exact neighborsOf_skeletonAux nodes asn (fun _ => default) (fun _ => rfl) k

theorem neighborsOf_dedupPlan (p : Plan) (k : String) :
    neighborsOf (dedupPlan p) k = dedupAux (neighborsOf p k) [] := rfl

theorem build_closed (nodes : List Node) (asn : Nat) (k : String) :
    neighborsOf (build_bgp_plan nodes asn) k = dedupAux (keyed (buildPre nodes) k) [] := by
  simp only [build_bgp_plan]
  rw [neighborsOf_dedupPlan]
  congr 1
  rw [meshStep_eq, clientsStep_eq, clientsStep_eq, clientsStep_eq,
      neighborsOf_applyAppends, neighborsOf_applyAppends, neighborsOf_applyAppends,
      neighborsOf_applyAppends, neighborsOf_skeleton]
  simp [buildPre, keyed_append, List.append_assoc]

theorem keyed_mem {l : List (String × Neighbor)} {k : String} {nb : Neighbor} :
    nb ∈ keyed l k ↔ (k, nb) ∈ l := by
  unfold keyed
  rw [List.mem_filterMap]
  constructor
  · rintro ⟨kn, hmem, hf⟩
    by_cases h : kn.1 = k
    · rw [if_pos h] at hf
      have hv : kn.2 = nb := Option.some.inj hf
      have hkn : kn = (k, nb) := Prod.ext h hv
      rwa [hkn] at hmem
    · rw [if_neg h] at hf; cases hf
  · intro h
    exact ⟨(k, nb), h, by simp⟩

theorem mem_roleGet {nodes : List Node} {r : String} {n : Node} :
    n ∈ roleGet nodes r ↔ n ∈ nodes ∧ n.role = r := by
  unfold roleGet
  simp [List.mem_filter]

theorem mem_appendsMesh {crrs : List Node} {kn : String × Neighbor} :
    kn ∈ appendsMesh crrs ↔
      ∃ a ∈ crrs, ∃ b ∈ crrs, a.name ≠ b.name ∧ kn = (a.name, mkMesh b) := by
  unfold appendsMesh
  rw [List.mem_flatMap]
  constructor
  · rintro ⟨a, ha, hmem⟩
    rw [List.mem_filterMap] at hmem
    obtain ⟨b, hb, hf⟩ := hmem
    by_cases h : a.name ≠ b.name
    · rw [if_pos h] at hf
      exact ⟨a, ha, b, hb, h, (Option.some.inj hf).symm⟩
    · rw [if_neg h] at hf; cases hf
  · rintro ⟨a, ha, b, hb, h, rfl⟩
    exact ⟨a, ha, List.mem_filterMap.2 ⟨b, hb, by rw [if_pos h]⟩⟩

theorem mem_pairAppends {a b : Node} {gab gba : String} {kn : String × Neighbor} :
    kn ∈ pairAppends a b gab gba ↔
      a.name ≠ b.name ∧
        (kn = (a.name, mkNb b gab) ∨ kn = (b.name, mkNb a gba)) := by
  unfold pairAppends
  split
  · next h => simp [h]
  · next h => simp [h]

theorem mem_appendsClients {rrs cls : List Node} {kn : String × Neighbor} :
    kn ∈ appendsClients rrs cls ↔
      ∃ rr ∈ rrs, ∃ cl ∈ cls, rr.name ≠ cl.name ∧
        (kn = (rr.name, mkNb cl "RR-to-Client")
          ∨ kn = (cl.name, mkNb rr "Client-to-RR")) := by
  unfold appendsClients
  simp [List.mem_flatMap, mem_pairAppends]

theorem dedup_subset {l : List Neighbor} {seen : List (String × String)}
    {nb : Neighbor} (h : nb ∈ dedupAux l seen) : nb ∈ l := by
  induction l generalizing seen with
  | nil => cases h
  | cons x t ih =>
    by_cases hk : nbKey x ∈ seen
    · simp only [dedupAux, if_pos hk] at h
      exact List.mem_cons_of_mem _ (ih h)
    · simp only [dedupAux, if_neg hk] at h
      rcases List.mem_cons.1 h with rfl | h2
      · exact List.mem_cons_self _ _
      · exact List.mem_cons_of_mem _ (ih h2)

theorem dedup_key_not_seen {l : List Neighbor} {seen : List (String × String)}
    {nb : Neighbor} (h : nb ∈ dedupAux l seen) : nbKey nb ∉ seen := by
  induction l generalizing seen with
  | nil => cases h
  | cons x t ih =>
    by_cases hk : nbKey x ∈ seen
    · simp only [dedupAux, if_pos hk] at h
      exact ih h
    · simp only [dedupAux, if_neg hk] at h
      rcases List.mem_cons.1 h with rfl | h2
      · exact hk
      · have h3 := ih h2
        exact fun hc => h3 (List.mem_cons_of_mem _ hc)

theorem dedup_pairwise (l : List Neighbor) (seen : List (String × String)) :
    (dedupAux l seen).Pairwise (fun x y => nbKey x ≠ nbKey y) := by
  induction l generalizing seen with
  | nil => exact List.Pairwise.nil
  | cons x t ih =>
    by_cases hk : nbKey x ∈ seen
    · simpa only [dedupAux, if_pos hk] using ih seen
    · simp only [dedupAux, if_neg hk]
      refine List.Pairwise.cons (fun y hy => ?_) (ih _)
      have h3 := dedup_key_not_seen hy
      intro he
      exact h3 (he ▸ List.mem_cons_self _ _)

theorem dedup_exists {Q : Neighbor → Prop} {K : String × String}
    {l : List Neighbor} {seen : List (String × String)}
    (hK : K ∉ seen) (hex : ∃ x ∈ l, nbKey x = K)
    (hall : ∀ x ∈ l, nbKey x = K → Q x) :
    ∃ y ∈ dedupAux l seen, nbKey y = K ∧ Q y := by
  induction l generalizing seen with
  | nil =>
    rcases hex with ⟨x, hx, _⟩
    cases hx
  | cons x t ih =>
    by_cases hk : nbKey x ∈ seen
    · simp only [dedupAux, if_pos hk]
      rcases hex with ⟨z, hz, hzK⟩
      rcases List.mem_cons.1 hz with rfl | hz2
      · rw [hzK] at hk
        exact absurd hk hK
      · exact ih hK ⟨z, hz2, hzK⟩
          (fun w hw hwK => hall w (List.mem_cons_of_mem _ hw) hwK)
    · simp only [dedupAux, if_neg hk]
      by_cases hxK : nbKey x = K
      · exact ⟨x, List.mem_cons_self _ _, hxK,
          hall x (List.mem_cons_self _ _) hxK⟩
      · rcases hex with ⟨z, hz, hzK⟩
        rcases List.mem_cons.1 hz with rfl | hz2
        · exact absurd hzK hxK
        · have hK2 : K ∉ nbKey x :: seen := by
            intro hc
            rcases List.mem_cons.1 hc with he | hc2
            · exact hxK he.symm
            · exact hK hc2
          obtain ⟨y, hy, hyK, hyQ⟩ := ih hK2 ⟨z, hz2, hzK⟩
            (fun w hw hwK => hall w (List.mem_cons_of_mem _ hw) hwK)
          exact ⟨y, List.mem_cons_of_mem _ hy, hyK, hyQ⟩

theorem buildPre_origin {nodes : List Node} {k : String} {nb : Neighbor}
    (h : (k, nb) ∈ buildPre nodes) :
    (∃ a ∈ nodes, ∃ b ∈ nodes, a.role = "crr" ∧ b.role = "crr" ∧
        a.name ≠ b.name ∧ k = a.name ∧ nb = mkMesh b) ∨
    (∃ rr ∈ nodes, ∃ cl ∈ nodes, rr.role = "crr" ∧
        (cl.role = "ccr" ∨ cl.role = "chr" ∨ cl.role = "sar") ∧ rr.name ≠ cl.name ∧
        ((k = rr.name ∧ nb = mkNb cl "RR-to-Client")
          ∨ (k = cl.name ∧ nb = mkNb rr "Client-to-RR"))) ∨
    (∃ rr ∈ nodes, ∃ cl ∈ nodes, rr.role = "chr" ∧
        (cl.role = "dhr" ∨ cl.role = "dsr" ∨ cl.role = "ahr") ∧ rr.name ≠ cl.name ∧
        ((k = rr.name ∧ nb = mkNb cl "RR-to-Client")
          ∨ (k = cl.name ∧ nb = mkNb rr "Client-to-RR"))) ∨
    (∃ rr ∈ nodes, ∃ cl ∈ nodes, rr.role = "ahr" ∧ cl.role = "asr" ∧
        rr.name ≠ cl.name ∧
        ((k = rr.name ∧ nb = mkNb cl "RR-to-Client")
          ∨ (k = cl.name ∧ nb = mkNb rr "Client-to-RR"))) := by
  unfold buildPre at h
  rcases List.mem_append.1 h with h123 | h4
  pick_goal 2
  · right; right; right
    obtain ⟨rr, hrr, cl, hcl, hne, hor⟩ := mem_appendsClients.1 h4
    refine ⟨rr, (mem_roleGet.1 hrr).1, cl, (mem_roleGet.1 hcl).1,
      (mem_roleGet.1 hrr).2, (mem_roleGet.1 hcl).2, hne, ?_⟩
    rcases hor with heq | heq
    · injection heq with hk hnb; exact Or.inl ⟨hk, hnb⟩
    · injection heq with hk hnb; exact Or.inr ⟨hk, hnb⟩
  rcases List.mem_append.1 h123 with h12 | h3
  pick_goal 2
  · right; right; left
    obtain ⟨rr, hrr, cl, hcl, hne, hor⟩ := mem_appendsClients.1 h3
    have hclrole : cl ∈ nodes ∧ (cl.role = "dhr" ∨ cl.role = "dsr" ∨ cl.role = "ahr") := by
      rcases List.mem_append.1 hcl with h12b | hc
      · rcases List.mem_append.1 h12b with ha | hb
        · exact ⟨(mem_roleGet.1 ha).1, Or.inl (mem_roleGet.1 ha).2⟩
        · exact ⟨(mem_roleGet.1 hb).1, Or.inr (Or.inl (mem_roleGet.1 hb).2)⟩
      · exact ⟨(mem_roleGet.1 hc).1, Or.inr (Or.inr (mem_roleGet.1 hc).2)⟩
    refine ⟨rr, (mem_roleGet.1 hrr).1, cl, hclrole.1, (mem_roleGet.1 hrr).2,
      hclrole.2, hne, ?_⟩
    rcases hor with heq | heq
    · injection heq with hk hnb; exact Or.inl ⟨hk, hnb⟩
    · injection heq with hk hnb; exact Or.inr ⟨hk, hnb⟩
  rcases List.mem_append.1 h12 with h1 | h2
  · left
    obtain ⟨a, ha, b, hb, hne, heq⟩ := mem_appendsMesh.1 h1
    injection heq with hk hnb
    exact ⟨a, (mem_roleGet.1 ha).1, b, (mem_roleGet.1 hb).1,
      (mem_roleGet.1 ha).2, (mem_roleGet.1 hb).2, hne, hk, hnb⟩
  · right; left
    obtain ⟨rr, hrr, cl, hcl, hne, hor⟩ := mem_appendsClients.1 h2
    have hclrole : cl ∈ nodes ∧ (cl.role = "ccr" ∨ cl.role = "chr" ∨ cl.role = "sar") := by
      rcases List.mem_append.1 hcl with h12 | h3
      · rcases List.mem_append.1 h12 with ha | hb
        · exact ⟨(mem_roleGet.1 ha).1, Or.inl (mem_roleGet.1 ha).2⟩
        · exact ⟨(mem_roleGet.1 hb).1, Or.inr (Or.inl (mem_roleGet.1 hb).2)⟩
      · exact ⟨(mem_roleGet.1 h3).1, Or.inr (Or.inr (mem_roleGet.1 h3).2)⟩
    refine ⟨rr, (mem_roleGet.1 hrr).1, cl, hclrole.1, (mem_roleGet.1 hrr).2,
      hclrole.2, hne, ?_⟩
    rcases hor with heq | heq
    · injection heq with hk hnb; exact Or.inl ⟨hk, hnb⟩
    · injection heq with hk hnb; exact Or.inr ⟨hk, hnb⟩

/-- C5: in every plan `build_bgp_plan` produces, no two entries of one
node's neighbor list share the same `(peer, group)` pair. -/
theorem bgp_dedup_invariant (nodes : List Node) (asn : Nat) (k : String) :
    (neighborsOf (build_bgp_plan nodes asn) k).Pairwise
      (fun x y => ¬ (x.peer = y.peer ∧ x.group = y.group)) := by
  rw [build_closed]
  refine (dedup_pairwise _ _).imp ?_
  intro x y hxy hc
  exact hxy (Prod.ext hc.1 hc.2)

/-- C6: a validation warning `(name, role, expected)` is emitted for a node
whose role has an expected upstream role exactly when its final neighbor
list has no `Client-to-RR` entry whose peer has that role. -/
theorem bgp_validation_iff (nodes : List Node) (asn : Nat) (n : Node)
    (expect : String) (hn : n ∈ nodes) (hexp : expectations n.role = some expect) :
    ((n.name, n.role, expect) ∈ validationWarnings nodes (build_bgp_plan nodes asn) ↔
      ¬ ∃ nb ∈ neighborsOf (build_bgp_plan nodes asn) n.name,
          nb.group = "Client-to-RR" ∧ nb.peer_role = expect) := by
  have hup : ∀ m : Node, m.name = n.name →
      (hasUpstream (neighborsOf (build_bgp_plan nodes asn) m.name) expect = true ↔
        ∃ nb ∈ neighborsOf (build_bgp_plan nodes asn) n.name,
          nb.group = "Client-to-RR" ∧ nb.peer_role = expect) := by
    intro m hm
    rw [hm]
    unfold hasUpstream
    rw [List.any_eq_true]
    constructor
    · rintro ⟨nb, hnb, hb⟩
      rw [Bool.and_eq_true, beq_iff_eq, beq_iff_eq] at hb
      exact ⟨nb, hnb, hb.2, hb.1⟩
    · rintro ⟨nb, hnb, hg, hr⟩
      refine ⟨nb, hnb, ?_⟩
      rw [Bool.and_eq_true, beq_iff_eq, beq_iff_eq]
      exact ⟨hr, hg⟩
  unfold validationWarnings
  rw [List.mem_filterMap]
  constructor
  · rintro ⟨m, hmmem, hf⟩
    split at hf
    · next e hem =>
      split at hf
      · next => cases hf
      · next hu =>
        have h3 := Option.some.inj hf
        have hname : m.name = n.name := congrArg Prod.fst h3
        have hee : e = expect := congrArg (fun t => t.2.2) h3
        subst hee
        exact fun hex => hu ((hup m hname).2 hex)
    · next => cases hf
  · intro hno
    refine ⟨n, hn, ?_⟩
    rw [hexp]
    have hu : ¬ (hasUpstream (neighborsOf (build_bgp_plan nodes asn) n.name) expect = true) :=
      fun h => hno ((hup n rfl).1 h)
    simp only [if_neg hu]

/-- C6 witness: a lone dhr node with no chr anywhere gets exactly the
missing-upstream warning. -/
theorem bgp_validation_iff_witness :
    (⟨"dhr1", "dhr", "10.0.0.9"⟩ : Node) ∈ nodesLoneDhr ∧
    expectations "dhr" = some "chr" ∧
    (("dhr1", "dhr", "chr") ∈ validationWarnings nodesLoneDhr (build_bgp_plan nodesLoneDhr 65000) ↔
      ¬ ∃ nb ∈ neighborsOf (build_bgp_plan nodesLoneDhr 65000) "dhr1",
          nb.group = "Client-to-RR" ∧ nb.peer_role = "chr") :=
  ⟨by decide, by decide,
   bgp_validation_iff nodesLoneDhr 65000 ⟨"dhr1", "dhr", "10.0.0.9"⟩ "chr"
     (by decide) (by decide)⟩

theorem mesh_entry_exists (nodes : List Node) (asn : Nat) (a b : Node)
    (ha : a ∈ nodes) (hb : b ∈ nodes) (hra : a.role = "crr") (hrb : b.role = "crr")
    (hab : a.name ≠ b.name)
    (hloop : ∀ c ∈ nodes, ∀ d ∈ nodes, c.role = "crr" → d.role = "crr" →
      c.loopback = d.loopback → c.name = d.name) :
    ∃ nb ∈ neighborsOf (build_bgp_plan nodes asn) a.name,
      nb.group = "RR-Mesh" ∧ nb.peer_name = b.name ∧ nb.peer = b.loopback := by
  rw [build_closed]
  have hex : ∃ x ∈ keyed (buildPre nodes) a.name, nbKey x = (b.loopback, "RR-Mesh") := by
    refine ⟨mkMesh b, ?_, rfl⟩
    rw [keyed_mem]
    unfold buildPre
    refine List.mem_append.2 (Or.inl (List.mem_append.2 (Or.inl
      (List.mem_append.2 (Or.inl ?_)))))
    exact mem_appendsMesh.2
      ⟨a, mem_roleGet.2 ⟨ha, hra⟩, b, mem_roleGet.2 ⟨hb, hrb⟩, hab, rfl⟩
  have hall : ∀ x ∈ keyed (buildPre nodes) a.name,
      nbKey x = (b.loopback, "RR-Mesh") →
      x.group = "RR-Mesh" ∧ x.peer_name = b.name ∧ x.peer = b.loopback := by
    intro x hx hkx
    have hpeer : x.peer = b.loopback := congrArg Prod.fst hkx
    have hgrp : x.group = "RR-Mesh" := congrArg Prod.snd hkx
    have horig := buildPre_origin (keyed_mem.1 hx)
    rcases horig with ⟨a2, _, b2, hb2m, _, hrb2, _, _, hnbv⟩
      | ⟨rr, _, cl, _, _, _, _, hd⟩ | ⟨rr, _, cl, _, _, _, _, hd⟩
      | ⟨rr, _, cl, _, _, _, _, hd⟩
    · subst hnbv
      have hlp : b2.loopback = b.loopback := hpeer
      have hname : b2.name = b.name := hloop b2 hb2m b hb hrb2 hrb hlp
      exact ⟨rfl, hname, hlp⟩
    · exfalso
      rcases hd with ⟨_, hnbv⟩ | ⟨_, hnbv⟩ <;> subst hnbv <;>
        simp [mkNb] at hgrp
    · exfalso
      rcases hd with ⟨_, hnbv⟩ | ⟨_, hnbv⟩ <;> subst hnbv <;>
        simp [mkNb] at hgrp
    · exfalso
      rcases hd with ⟨_, hnbv⟩ | ⟨_, hnbv⟩ <;> subst hnbv <;>
        simp [mkNb] at hgrp
  obtain ⟨y, hy, hyK, hyQ⟩ := dedup_exists (List.not_mem_nil _) hex hall
  exact ⟨y, hy, hyQ⟩

/-- C3 (amended): mesh completeness for distinct-name crr pairs, provided
crr loopbacks identify crr nodes (distinct crr nodes never share one). -/
theorem crr_mesh_completeness (nodes : List Node) (asn : Nat) (a b : Node)
    (ha : a ∈ nodes) (hb : b ∈ nodes) (hra : a.role = "crr") (hrb : b.role = "crr")
    (hab : a.name ≠ b.name)
    (hloop : ∀ c ∈ nodes, ∀ d ∈ nodes, c.role = "crr" → d.role = "crr" →
      c.loopback = d.loopback → c.name = d.name) :
    (∃ nb ∈ neighborsOf (build_bgp_plan nodes asn) a.name,
        nb.group = "RR-Mesh" ∧ nb.peer_name = b.name ∧ nb.peer = b.loopback) ∧
    (∃ nb ∈ neighborsOf (build_bgp_plan nodes asn) b.name,
        nb.group = "RR-Mesh" ∧ nb.peer_name = a.name ∧ nb.peer = a.loopback) :=
  ⟨mesh_entry_exists nodes asn a b ha hb hra hrb hab hloop,
   mesh_entry_exists nodes asn b a hb ha hrb hra (Ne.symm hab) hloop⟩

/-- C3 counterexample: with three distinct crr nodes sharing one loopback,
`plan["crr1"]` holds no RR-Mesh entry referencing `crr3` (dedup collapsed
it onto the `crr2` entry), refuting the claim over every input list. -/
theorem crr_mesh_counterexample :
    (⟨"crr1", "crr", "10.0.0.1"⟩ : Node) ∈ nodesSharedLoop ∧
    (⟨"crr3", "crr", "10.0.0.1"⟩ : Node) ∈ nodesSharedLoop ∧
    ¬ ∃ nb ∈ neighborsOf (build_bgp_plan nodesSharedLoop 65000) "crr1",
        nb.group = "RR-Mesh" ∧ nb.peer_name = "crr3" := by decide

/-- C3 witness: two crr nodes with distinct loopbacks mesh both ways. -/
theorem crr_mesh_completeness_witness :
    (∃ nb ∈ neighborsOf (build_bgp_plan nodesTwoCrr 65000) "crr1",
        nb.group = "RR-Mesh" ∧ nb.peer_name = "crr2" ∧ nb.peer = "10.0.0.2") ∧
    (∃ nb ∈ neighborsOf (build_bgp_plan nodesTwoCrr 65000) "crr2",
        nb.group = "RR-Mesh" ∧ nb.peer_name = "crr1" ∧ nb.peer = "10.0.0.1") :=
  crr_mesh_completeness nodesTwoCrr 65000
    ⟨"crr1", "crr", "10.0.0.1"⟩ ⟨"crr2", "crr", "10.0.0.2"⟩
    (by decide) (by decide) rfl rfl (by decide) (by decide)

/-- C4 (amended): with pairwise-distinct node names, no plan entry pairs a
ccr node with a chr or sar peer, in either direction. -/
theorem no_forbidden_tier_pairs (nodes : List Node) (asn : Nat)
    (hinj : ∀ c ∈ nodes, ∀ d ∈ nodes, c.name = d.name → c = d) :
    ∀ n ∈ nodes, ∀ nb ∈ neighborsOf (build_bgp_plan nodes asn) n.name,
      ¬ (n.role = "ccr" ∧ nb.peer_role = "chr") ∧
      ¬ (n.role = "chr" ∧ nb.peer_role = "ccr") ∧
      ¬ (n.role = "ccr" ∧ nb.peer_role = "sar") ∧
      ¬ (n.role = "sar" ∧ nb.peer_role = "ccr") := by
  intro n hn nb hnb
  rw [build_closed] at hnb
  have horig := buildPre_origin (keyed_mem.1 (dedup_subset hnb))
  rcases horig with ⟨a, ham, b, hbm, hrla, hrlb, _, hk, hnbv⟩
    | ⟨rr, hrrm, cl, hclm, hrr, hcl, _, hd⟩
    | ⟨rr, hrrm, cl, hclm, hrr, hcl, _, hd⟩
    | ⟨rr, hrrm, cl, hclm, hrr, hcl, _, hd⟩
  · have hna : n = a := hinj n hn a ham hk
    subst hnbv
    rw [hna, hrla]
    simp [mkMesh]
  · rcases hd with ⟨hk, hnbv⟩ | ⟨hk, hnbv⟩
    · have hne : n = rr := hinj n hn rr hrrm hk
      subst hnbv
      rw [hne, hrr]
      simp [mkNb]
    · have hne : n = cl := hinj n hn cl hclm hk
      subst hnbv
      rw [hne]
      simp only [mkNb]
      rcases hcl with h | h | h <;> rw [h] <;> simp [hrr]
  · rcases hd with ⟨hk, hnbv⟩ | ⟨hk, hnbv⟩
    · have hne : n = rr := hinj n hn rr hrrm hk
      subst hnbv
      rw [hne, hrr]
      simp only [mkNb]
      rcases hcl with h | h | h <;> rw [h] <;> simp
    · have hne : n = cl := hinj n hn cl hclm hk
      subst hnbv
      rw [hne]
      simp only [mkNb]
      rcases hcl with h | h | h <;> rw [h] <;> simp
  · rcases hd with ⟨hk, hnbv⟩ | ⟨hk, hnbv⟩
    · have hne : n = rr := hinj n hn rr hrrm hk
      subst hnbv
      rw [hne, hrr]
      simp [mkNb]
    · have hne : n = cl := hinj n hn cl hclm hk
      subst hnbv
      rw [hne, hcl]
      simp [mkNb]

/-- C4 counterexample: with the name `X` carried by both a dhr node and a
ccr node, the plan keyed at `X` — the name of a ccr-role node of the
input — holds an entry whose peer has role chr, so the claim fails for
this input list. -/
theorem forbidden_pair_counterexample :
    (⟨"X", "ccr", "3.3.3.3"⟩ : Node) ∈ nodesDupName ∧
    (⟨"X", "ccr", "3.3.3.3"⟩ : Node).role = "ccr" ∧
    ∃ nb ∈ neighborsOf (build_bgp_plan nodesDupName 65000) "X",
      nb.peer_role = "chr" := by decide

/-- C4 witness: a four-node hierarchy slice with distinct names. -/
theorem no_forbidden_tier_pairs_witness :
    (∀ c ∈ nodesHier, ∀ d ∈ nodesHier, c.name = d.name → c = d) ∧
    ∀ n ∈ nodesHier, ∀ nb ∈ neighborsOf (build_bgp_plan nodesHier 65000) n.name,
      ¬ (n.role = "ccr" ∧ nb.peer_role = "chr") ∧
      ¬ (n.role = "chr" ∧ nb.peer_role = "ccr") ∧
      ¬ (n.role = "ccr" ∧ nb.peer_role = "sar") ∧
      ¬ (n.role = "sar" ∧ nb.peer_role = "ccr") :=
  ⟨by decide, no_forbidden_tier_pairs nodesHier 65000 (by decide)⟩

/-- C1 (amended): the plan applies no region restriction at all — a
distribution-tier client's `Client-to-RR` entries are exactly the full set
of chr-role parent reflectors, whatever regions the names carry (names
pairwise distinct, chr loopbacks distinct). -/
theorem distribution_candidates_full (nodes : List Node) (asn : Nat)
    (hinj : ∀ c ∈ nodes, ∀ d ∈ nodes, c.name = d.name → c = d)
    (hloop : ∀ c ∈ nodes, ∀ d ∈ nodes, c.role = "chr" → d.role = "chr" →
      c.loopback = d.loopback → c = d)
    (c : Node) (hc : c ∈ nodes)
    (hrole : c.role = "dhr" ∨ c.role = "dsr" ∨ c.role = "ahr") :
    (∀ nb ∈ neighborsOf (build_bgp_plan nodes asn) c.name,
        nb.group = "Client-to-RR" →
        ∃ r ∈ nodes, r.role = "chr" ∧ nb = mkNb r "Client-to-RR") ∧
    (∀ r ∈ nodes, r.role = "chr" →
        ∃ nb ∈ neighborsOf (build_bgp_plan nodes asn) c.name,
          nb = mkNb r "Client-to-RR") := by
  constructor
  · intro nb hnb hgrp
    rw [build_closed] at hnb
    have horig := buildPre_origin (keyed_mem.1 (dedup_subset hnb))
    rcases horig with ⟨a, ham, b, hbm, hrla, hrlb, _, hk, hnbv⟩
      | ⟨rr, hrrm, cl, hclm, hrr, hcl, _, hd⟩
      | ⟨rr, hrrm, cl, hclm, hrr, hcl, _, hd⟩
      | ⟨rr, hrrm, cl, hclm, hrr, hcl, _, hd⟩
    · subst hnbv; simp [mkMesh] at hgrp
    · rcases hd with ⟨hk, hnbv⟩ | ⟨hk, hnbv⟩
      · subst hnbv; simp [mkNb] at hgrp
      · exfalso
        have hceq : c = cl := hinj c hc cl hclm hk
        rcases hrole with h | h | h <;> rcases hcl with h2 | h2 | h2 <;>
          (rw [hceq] at h; rw [h2] at h; exact absurd h (by decide))
    · rcases hd with ⟨hk, hnbv⟩ | ⟨hk, hnbv⟩
      · subst hnbv; simp [mkNb] at hgrp
      · exact ⟨rr, hrrm, hrr, hnbv⟩
    · rcases hd with ⟨hk, hnbv⟩ | ⟨hk, hnbv⟩
      · subst hnbv; simp [mkNb] at hgrp
      · exfalso
        have hceq : c = cl := hinj c hc cl hclm hk
        rcases hrole with h | h | h <;>
          (rw [hceq] at h; rw [hcl] at h; exact absurd h (by decide))
  · intro r hr hrrole
    rw [build_closed]
    have hex : ∃ x ∈ keyed (buildPre nodes) c.name,
        nbKey x = (r.loopback, "Client-to-RR") := by
      refine ⟨mkNb r "Client-to-RR", ?_, rfl⟩
      rw [keyed_mem]
      unfold buildPre
      refine List.mem_append.2 (Or.inl (List.mem_append.2 (Or.inr ?_)))
      refine mem_appendsClients.2
        ⟨r, mem_roleGet.2 ⟨hr, hrrole⟩, c, ?_, ?_, Or.inr rfl⟩
      · rcases hrole with h | h | h
        · exact List.mem_append.2 (Or.inl (List.mem_append.2 (Or.inl
            (mem_roleGet.2 ⟨hc, h⟩))))
        · exact List.mem_append.2 (Or.inl (List.mem_append.2 (Or.inr
            (mem_roleGet.2 ⟨hc, h⟩))))
        · exact List.mem_append.2 (Or.inr (mem_roleGet.2 ⟨hc, h⟩))
      · intro hnm
        have hrc : r = c := hinj r hr c hc hnm
        rcases hrole with h | h | h <;>
          (rw [← hrc] at h; rw [hrrole] at h; exact absurd h (by decide))
    have hall : ∀ x ∈ keyed (buildPre nodes) c.name,
        nbKey x = (r.loopback, "Client-to-RR") → x = mkNb r "Client-to-RR" := by
      intro x hx hkx
      have hpeer : x.peer = r.loopback := congrArg Prod.fst hkx
      have hgrp : x.group = "Client-to-RR" := congrArg Prod.snd hkx
      have horig := buildPre_origin (keyed_mem.1 hx)
      rcases horig with ⟨a, ham, b, hbm, hrla, hrlb, _, hk, hnbv⟩
        | ⟨rr, hrrm, cl, hclm, hrr, hcl, _, hd⟩
        | ⟨rr, hrrm, cl, hclm, hrr, hcl, _, hd⟩
        | ⟨rr, hrrm, cl, hclm, hrr, hcl, _, hd⟩
      · subst hnbv; simp [mkMesh] at hgrp
      · rcases hd with ⟨hk, hnbv⟩ | ⟨hk, hnbv⟩
        · subst hnbv; simp [mkNb] at hgrp
        · exfalso
          have hceq : c = cl := hinj c hc cl hclm hk
          rcases hrole with h | h | h <;> rcases hcl with h2 | h2 | h2 <;>
            (rw [hceq] at h; rw [h2] at h; exact absurd h (by decide))
      · rcases hd with ⟨hk, hnbv⟩ | ⟨hk, hnbv⟩
        · subst hnbv; simp [mkNb] at hgrp
        · subst hnbv
          have hlp : rr.loopback = r.loopback := by simpa [mkNb] using hpeer
          have hre : rr = r := hloop rr hrrm r hr hrr hrrole hlp
          rw [hre]
      · rcases hd with ⟨hk, hnbv⟩ | ⟨hk, hnbv⟩
        · subst hnbv; simp [mkNb] at hgrp
        · exfalso
          have hceq : c = cl := hinj c hc cl hclm hk
          rcases hrole with h | h | h <;>
            (rw [hceq] at h; rw [hcl] at h; exact absurd h (by decide))
    obtain ⟨y, hy, hyK, hyQ⟩ := dedup_exists (List.not_mem_nil _) hex hall
    exact ⟨y, hy, hyQ⟩

/-- C1 counterexample: for the distribution client `dsr12` (region 12)
with parent reflectors `chr12` (region 12) and `chr5` (region 5), the plan
pairs the client with the different-region reflector `chr5` as well — the
candidate set is not restricted to the matching region. -/
theorem region_restriction_counterexample :
    specRegion "dsr12" = some 12 ∧ specRegion "chr12" = some 12 ∧
    specRegion "chr5" = some 5 ∧
    ∃ nb ∈ neighborsOf (build_bgp_plan nodesRegion 65000) "dsr12",
      nb.group = "Client-to-RR" ∧ nb.peer_name = "chr5" := by decide

/-- C1 witness: a chr parent and a dsr client of different regions. -/
theorem distribution_candidates_full_witness :
    (∀ nb ∈ neighborsOf (build_bgp_plan nodesChrDsr 65000) "dsr5",
        nb.group = "Client-to-RR" →
        ∃ r ∈ nodesChrDsr, r.role = "chr" ∧ nb = mkNb r "Client-to-RR") ∧
    (∀ r ∈ nodesChrDsr, r.role = "chr" →
        ∃ nb ∈ neighborsOf (build_bgp_plan nodesChrDsr 65000) "dsr5",
          nb = mkNb r "Client-to-RR") :=
  distribution_candidates_full nodesChrDsr 65000 (by decide) (by decide)
    ⟨"dsr5", "dsr", "10.0.0.3"⟩ (by decide) (Or.inr (Or.inl rfl))

theorem isPrefixOf_single {c : Char} {l : List Char} :
    [c].isPrefixOf l = true ↔ ∃ t, l = c :: t := by
  cases l with
  | nil => simp [List.isPrefixOf]
  | cons a t =>
    simp only [List.isPrefixOf, Bool.and_true, beq_iff_eq]
    constructor
    · intro h; exact ⟨t, by rw [h]⟩
    · rintro ⟨t2, he⟩
      injection he with hch _
      exact hch.symm

theorem isPrefixOf_pair {c1 c2 : Char} {l : List Char} :
    [c1, c2].isPrefixOf l = true ↔ ∃ t, l = c1 :: c2 :: t := by
  cases l with
  | nil => simp [List.isPrefixOf]
  | cons a t =>
    cases t with
    | nil => simp [List.isPrefixOf]
    | cons b t2 =>
      simp only [List.isPrefixOf, Bool.and_true, Bool.and_eq_true, beq_iff_eq]
      constructor
      · rintro ⟨h1, h2⟩
        exact ⟨t2, by rw [h1, h2]⟩
      · rintro ⟨t3, he⟩
        injection he with hc1 he2
        injection he2 with hc2 _
        exact ⟨hc1.symm, hc2.symm⟩

theorem pyStartswith_one {s p : String} {c : Char} (hp : p.toList = [c]) :
    pyStartswith s p = true ↔ ∃ t, s.toList = c :: t := by
  unfold pyStartswith
  rw [hp]
  exact isPrefixOf_single

theorem pyStartswith_pair {s p : String} {c1 c2 : Char} (hp : p.toList = [c1, c2]) :
    pyStartswith s p = true ↔ ∃ t, s.toList = c1 :: c2 :: t := by
  unfold pyStartswith
  rw [hp]
  exact isPrefixOf_pair

/-- C8 (amended): the BGP classifier maps any name whose lower-casing
starts with `ce` to role `ce` as its first rule; the OSPF classifier's
first rule matches only the literal upper-case `CE` marker. -/
theorem ce_marker_first_rule :
    (∀ s : String, pyStartswith (pyLower s) "ce" = true →
        classify_router s = "ce") ∧
    (∀ s : String, pyStartswith s "CE" = true → get_router_role s = "ce") := by
  constructor
  · intro s h
    simp [classify_router, h]
  · intro s h
    simp [get_router_role, h]

/-- C8 witness: `CE9` classifies as `ce` in both classifiers. -/
theorem ce_marker_first_rule_witness :
    (pyStartswith (pyLower "CE9") "ce" = true ∧ classify_router "CE9" = "ce") ∧
    (pyStartswith "CE9" "CE" = true ∧ get_router_role "CE9" = "ce") :=
  ⟨⟨by decide, ce_marker_first_rule.1 "CE9" (by decide)⟩,
   ⟨by decide, ce_marker_first_rule.2 "CE9" (by decide)⟩⟩

/-- C8 counterexample: the lower-case customer-edge name `ce1` is mapped
to role `core`, not `ce`, by the OSPF classifier, whose first rule is
case-sensitive. -/
theorem ce_marker_counterexample :
    pyStartswith (pyLower "ce1") "ce" = true ∧ get_router_role "ce1" = "core" := by
  decide

/-- C7 (amended): in the BGP wizard a node with an unresolved loopback
makes the run abort, naming the node, before `build_bgp_plan` is invoked. -/
theorem missing_loopback_aborts (nodes : List RawNode) (asn : Nat) (n : RawNode)
    (hn : n ∈ nodes) (hmiss : n.loopback = none) :
    ∃ errs, bgp_plan_or_abort nodes asn = Except.error errs ∧ n.name ∈ errs := by
  simp only [bgp_plan_or_abort]
  have hmem : n ∈ nodes.filter (fun m => pyFalsyStr m.loopback) :=
    List.mem_filter.2 ⟨hn, by rw [hmiss]; rfl⟩
  have hne : ¬ ((nodes.filter (fun m => pyFalsyStr m.loopback)).isEmpty = true) := by
    cases hcase : nodes.filter (fun m => pyFalsyStr m.loopback) with
    | nil => rw [hcase] at hmem; cases hmem
    | cons x xs => simp [List.isEmpty]
  rw [if_neg hne]
  exact ⟨_, rfl, List.mem_map.2 ⟨n, hmem, rfl⟩⟩

/-- C7 witness: one dsr router whose loopback collection returned nothing. -/
theorem missing_loopback_aborts_witness :
    (⟨"dsr1", "dsr", "172.20.20.2", none⟩ : RawNode) ∈ rawMissing ∧
    ∃ errs, bgp_plan_or_abort rawMissing 65000 = Except.error errs ∧
      "dsr1" ∈ errs :=
  ⟨by decide,
   missing_loopback_aborts rawMissing 65000
     ⟨"dsr1", "dsr", "172.20.20.2", none⟩ (by decide) rfl⟩

/-- C7 counterexample: the OSPF wizard plans a router whose loopback is
unresolved anyway, fabricating the default router-id 1.1.1.1 and
allocating its processes — nothing is surfaced and planning proceeds. -/
theorem ospf_default_rid_counterexample :
    ospf_router_plan "ds" none = ("1.1.1.1", [10]) := by decide

/-- C2: the deployed `link_to_ospf` is a pure per-link function in which
every ah↔ah link falls to the generic a↔a rule: both parallel links
between `ahrg1` and `ahrb1` receive process 100 / the access area, so no
alternation between process 10 and 100 ever happens. -/
theorem parallel_ah_links_no_alternation :
    link_to_ospf "ahrg1" "GigabitEthernet0/0/0/0" "ahrb1" "GigabitEthernet0/0/0/0"
      = some (some (100, OSPF_AREA_ACCESS)) ∧
    link_to_ospf "ahrg1" "GigabitEthernet0/0/0/1" "ahrb1" "GigabitEthernet0/0/0/1"
      = some (some (100, OSPF_AREA_ACCESS)) := by decide

theorem ah_imp_a {s : String} (h : pyStartswith s "ah" = true) :
    pyStartswith s "a" = true := by
  obtain ⟨t, ht⟩ := (@pyStartswith_pair s "ah" 'a' 'h' rfl).1 h
  exact (pyStartswith_one rfl).2 ⟨'h' :: t, ht⟩

/-- C9: every link whose two endpoint node names both start with `ah` is
assigned process 100 and the access area by the generic a↔a rule; the
dedicated ah↔ah branch further down never decides any input. -/
theorem ah_links_always_access (n1 i1 n2 i2 : String)
    (h1 : pyStartswith n1 "ah" = true) (h2 : pyStartswith n2 "ah" = true) :
    link_to_ospf n1 i1 n2 i2 = some (some (100, OSPF_AREA_ACCESS)) := by
  obtain ⟨t1, ht1⟩ := (@pyStartswith_pair n1 "ah" 'a' 'h' rfl).1 h1
  obtain ⟨t2, ht2⟩ := (@pyStartswith_pair n2 "ah" 'a' 'h' rfl).1 h2
  have ha1 : pyStartswith n1 "a" = true := ah_imp_a h1
  have ha2 : pyStartswith n2 "a" = true := ah_imp_a h2
  have hce1 : pyStartswith n1 "CE" = false := by
    rw [Bool.eq_false_iff]
    intro hc
    obtain ⟨t, ht⟩ := (@pyStartswith_pair n1 "CE" 'C' 'E' rfl).1 hc
    rw [ht1] at ht
    injection ht with hch _
    exact absurd hch (by decide)
  have hce2 : pyStartswith n2 "CE" = false := by
    rw [Bool.eq_false_iff]
    intro hc
    obtain ⟨t, ht⟩ := (@pyStartswith_pair n2 "CE" 'C' 'E' rfl).1 hc
    rw [ht2] at ht
    injection ht with hch _
    exact absurd hch (by decide)
  have hch1 : pyStartswith n1 "ch" = false := by
    rw [Bool.eq_false_iff]
    intro hc
    obtain ⟨t, ht⟩ := (@pyStartswith_pair n1 "ch" 'c' 'h' rfl).1 hc
    rw [ht1] at ht
    injection ht with hch _
    exact absurd hch (by decide)
  have hd1 : pyStartswith n1 "d" = false := by
    rw [Bool.eq_false_iff]
    intro hc
    obtain ⟨t, ht⟩ := (@pyStartswith_one n1 "d" 'd' rfl).1 hc
    rw [ht1] at ht
    injection ht with hch _
    exact absurd hch (by decide)
  have hd2 : pyStartswith n2 "d" = false := by
    rw [Bool.eq_false_iff]
    intro hc
    obtain ⟨t, ht⟩ := (@pyStartswith_one n2 "d" 'd' rfl).1 hc
    rw [ht2] at ht
    injection ht with hch _
    exact absurd hch (by decide)
  have hcs : charIn 'a' "cs" = false := by decide
  unfold link_to_ospf ltoRest
  rw [ht1]
  simp [hce1, hce2, hch1, hd1, hd2, ha1, ha2, hcs]

/-- C9 witness: two concrete ah-named endpoints. -/
theorem ah_links_always_access_witness :
    pyStartswith "ahrg1" "ah" = true ∧ pyStartswith "ahrb1" "ah" = true ∧
    link_to_ospf "ahrg1" "GigabitEthernet0/0/0/2" "ahrb1" "GigabitEthernet0/0/0/3"
      = some (some (100, OSPF_AREA_ACCESS)) :=
  ⟨by decide, by decide,
   ah_links_always_access "ahrg1" "GigabitEthernet0/0/0/2" "ahrb1"
     "GigabitEthernet0/0/0/3" (by decide) (by decide)⟩

theorem aRule_collapse (n1 n2 : String) :
    ((pyStartswith n1 "a" && pyStartswith n2 "a")
      || ((pyStartswith n1 "ah" && pyStartswith n2 "a")
          || (pyStartswith n2 "a" && pyStartswith n1 "ah")))
      = (pyStartswith n1 "a" && pyStartswith n2 "a") := by
  cases hah : pyStartswith n1 "ah" with
  | false => simp [hah]
  | true => simp [hah, ah_imp_a hah]

theorem ltoRest_symm (n1 i1 n2 i2 : String) :
    ltoRest n1 i1 n2 i2 = ltoRest n2 i2 n1 i1 := by
  unfold ltoRest
  have hc1 : (pyStartswith n2 "ch" && pyStartswith n1 "ch")
      = (pyStartswith n1 "ch" && pyStartswith n2 "ch") := Bool.and_comm _ _
  have hb1 : (pyEndswith i2 "0/0/0/0" || pyEndswith i1 "0/0/0/0")
      = (pyEndswith i1 "0/0/0/0" || pyEndswith i2 "0/0/0/0") := Bool.or_comm _ _
  have hc2 : ((pyStartswith n2 "d" && pyStartswith n1 "d")
      || ((pyStartswith n2 "d" && pyStartswith n1 "ah")
          || (pyStartswith n1 "d" && pyStartswith n2 "ah")))
      = ((pyStartswith n1 "d" && pyStartswith n2 "d")
      || ((pyStartswith n1 "d" && pyStartswith n2 "ah")
          || (pyStartswith n2 "d" && pyStartswith n1 "ah"))) := by
    have hgen : ∀ a b c d : Bool,
        ((b && a) || ((b && c) || (a && d))) = ((a && b) || ((a && d) || (b && c))) := by
      decide
    exact hgen _ _ _ _
  have hc3 : ((pyStartswith n2 "a" && pyStartswith n1 "a")
      || ((pyStartswith n2 "ah" && pyStartswith n1 "a")
          || (pyStartswith n1 "a" && pyStartswith n2 "ah")))
      = ((pyStartswith n1 "a" && pyStartswith n2 "a")
      || ((pyStartswith n1 "ah" && pyStartswith n2 "a")
          || (pyStartswith n2 "a" && pyStartswith n1 "ah"))) := by
    rw [aRule_collapse n2 n1, aRule_collapse n1 n2, Bool.and_comm]
  have hc4 : (pyStartswith n2 "ah" && pyStartswith n1 "ah")
      = (pyStartswith n1 "ah" && pyStartswith n2 "ah") := Bool.and_comm _ _
  have hc5 : ((pyStartswith n2 "c" && pyStartswith n1 "d")
      || (pyStartswith n2 "d" && pyStartswith n1 "c"))
      = ((pyStartswith n1 "c" && pyStartswith n2 "d")
      || (pyStartswith n1 "d" && pyStartswith n2 "c")) := by
    have hgen : ∀ p q r s : Bool, ((p && q) || (r && s)) = ((s && r) || (q && p)) := by
      decide
    exact hgen _ _ _ _
  rw [hc1, hb1, hc2, hc3, hc4, hc5,
      if_pos (min_choice i1 i2), if_pos (min_choice i2 i1)]

theorem string_ne_empty_toList {s : String} (h : s ≠ "") :
    ∃ c t, s.toList = c :: t := by
  cases hc : s.toList with
  | nil =>
    exfalso
    apply h
    rw [← String.toList_inj, hc]
    rfl
  | cons c t => exact ⟨c, t, rfl⟩

/-- C10 (amended): for link observations whose two node names are
nonempty, `link_to_ospf` treats its endpoints symmetrically. -/
theorem link_to_ospf_symm (n1 i1 n2 i2 : String) (h1 : n1 ≠ "") (h2 : n2 ≠ "") :
    link_to_ospf n1 i1 n2 i2 = link_to_ospf n2 i2 n1 i1 := by
  obtain ⟨c1, t1, ht1⟩ := string_ne_empty_toList h1
  obtain ⟨c2, t2, ht2⟩ := string_ne_empty_toList h2
  unfold link_to_ospf
  rw [ht1, ht2, Bool.or_comm (pyStartswith n2 "CE") (pyStartswith n1 "CE")]
  by_cases hce : (pyStartswith n1 "CE" || pyStartswith n2 "CE") = true
  · simp [hce]
  · simp only [Bool.not_eq_true] at hce
    by_cases hcs1 : charIn c1 "cs" = true
    · by_cases hcs2 : charIn c2 "cs" = true
      · simp [hce, hcs1, hcs2]
      · simp only [Bool.not_eq_true] at hcs2
        simp [hce, hcs1, hcs2, ltoRest_symm n1 i1 n2 i2]
    · simp only [Bool.not_eq_true] at hcs1
      by_cases hcs2 : charIn c2 "cs" = true
      · simp [hce, hcs1, hcs2, ltoRest_symm n1 i1 n2 i2]
      · simp only [Bool.not_eq_true] at hcs2
        simp [hce, hcs1, hcs2, ltoRest_symm n1 i1 n2 i2]

/-- C10 counterexample: with an empty first node name the call raises
(IndexError, modelled `none`), while the swapped call returns normally, so
the two orders of the same observation do not agree. -/
theorem link_symm_counterexample :
    link_to_ospf "" "Gi0" "d1" "Gi1" ≠ link_to_ospf "d1" "Gi1" "" "Gi0" := by
  decide

/-- C10 witness: a concrete swapped pair of endpoints. -/
theorem link_to_ospf_symm_witness :
    ("dsr1" : String) ≠ "" ∧ ("ahrg1" : String) ≠ "" ∧
    link_to_ospf "dsr1" "Gi0" "ahrg1" "Gi1"
      = link_to_ospf "ahrg1" "Gi1" "dsr1" "Gi0" :=
  ⟨by decide, by decide,
   link_to_ospf_symm "dsr1" "Gi0" "ahrg1" "Gi1" (by decide) (by decide)⟩

end ClabTools
